import Mathlib

/-!
Shallow embedding of `src/frontend/client/src/utils/chunkedUpload.js`
(chunked file upload utility): `createFileChunks`, `uploadFileInChunks`
and `abortChunkedUpload`, together with proofs of the specified
properties of the chunk partition, the upload coordinator's event
traces, its progress reporting and its error propagation.

Modelling conventions:
* a JS `File` is its name, MIME type and byte contents;
* `file.slice(start, end)` is the `Blob` holding the byte range
  `[start, end)` together with the bytes themselves;
* the network is an oracle (`Transport`): the response each `fetch`
  would resolve to.  A rejected `fetch` (transport failure) and a
  non-2xx response reach the same `catch` in the source, so both are
  modelled as a `Response` with `ok = false`;
* an execution is recorded as a list of `Event`s (requests issued and
  callbacks invoked, in order) together with the promise's outcome,
  `Except UploadError α`: `Except.error` is a rejected promise;
* JS numbers are modelled as `Nat`/`Int`; `Math.round` on the exact
  value `k/n*100` is round-half-up, `⌊(200k + n) / (2n)⌋`.
-/

/-- Default chunk size of the source: `1024 * 1024` (1 MiB). -/
def DEFAULT_CHUNK_SIZE : Nat := 1024 * 1024

/-- A JS `File`: name, MIME type, and the byte contents. -/
structure JSFile where
  name : String
  type : String
  bytes : List Nat
deriving DecidableEq

/-- Size of a file in bytes (`file.size`). -/
def JSFile.size (f : JSFile) : Nat := f.bytes.length

/-- A JS `Blob` produced by `file.slice(start, end)`: the byte range
`[start, stop)` plus the sliced bytes. -/
structure Blob where
  start : Nat
  stop : Nat
  data : List Nat
deriving DecidableEq

instance : Inhabited Blob := ⟨⟨0, 0, []⟩⟩

/-- The byte range `[start, stop)` of a blob. -/
def Blob.range (b : Blob) : Nat × Nat := (b.start, b.stop)

/-- Model of `file.slice(start, end)`. -/
def JSFile.slice (f : JSFile) (s e : Nat) : Blob :=
  ⟨s, e, (f.bytes.drop s).take (e - s)⟩

/-- One pass of the `while (start < file.size)` loop of
`createFileChunks`, recorded as the list of `(start, end)` pairs the
loop slices at, where `end = min(start + chunkSize, file.size)` and the
next iteration resumes at `end`.  The `fuel` argument bounds the number
of iterations so the recursion is structural; `chunkRangesFrom` below
pins it to `S - start`, which suffices whenever `0 < C` (the loop then
advances `start` by at least 1 each iteration).  When `C = 0` the
source loop does not terminate; that case is analysed separately via
`chunksLoopFuel`. -/
def chunkRangesGo (S C : Nat) : Nat → Nat → List (Nat × Nat)
  | _, 0 => []
  | start, fuel + 1 =>
    if start < S then
      if 0 < C then
        (start, min (start + C) S) :: chunkRangesGo S C (min (start + C) S) fuel
      else []
    else []

/-- The `(start, end)` pairs visited by `createFileChunks`'s loop from
offset `start` on a file of size `S` with chunk size `C`. -/
def chunkRangesFrom (S C start : Nat) : List (Nat × Nat) :=
  chunkRangesGo S C start (S - start)

/-- Model of `createFileChunks(file, chunkSize)`: the loop pushes
`file.slice(start, end)` for exactly the `(start, end)` pairs of
`chunkRangesFrom`. -/
def createFileChunks (f : JSFile) (C : Nat) : List Blob :=
  (chunkRangesFrom f.size C 0).map (fun r => f.slice r.1 r.2)

/-- Number of chunks `uploadFileInChunks` computes (`totalChunks`). -/
def totalChunksOf (f : JSFile) (C : Nat) : Nat := (createFileChunks f C).length

/-- The `while` loop of `createFileChunks` run for a bounded number of
iterations, over `Int` so that nonpositive chunk sizes (possible for a
JS number) are covered: `none` means the loop did not finish within
`fuel` iterations.  Used for the termination analysis. -/
def chunksLoopFuel : Nat → Int → Int → Int → Option (List (Int × Int))
  | 0, S, _, start => if start < S then none else some []
  | fuel + 1, S, C, start =>
    if start < S then
      match chunksLoopFuel fuel S C (min (start + C) S) with
      | some rest => some ((start, min (start + C) S) :: rest)
      | none => none
    else some []

/-- JS `Math.round` applied to the exact rational `num / den`
(round half up, i.e. `⌊num/den + 1/2⌋`), as a natural number. -/
def jsRoundDiv (num den : Nat) : Nat := (2 * num + den) / (2 * den)

/-- The object passed to the `onProgress` callback:
`{uploadId, totalChunks, uploadedChunks, progress}`. -/
structure ProgressRecord where
  uploadId : String
  totalChunks : Nat
  uploadedChunks : Nat
  progress : Nat
deriving DecidableEq

/-- The progress record built after a successful chunk:
`progress = Math.round((uploadedChunks / totalChunks) * 100)`. -/
def chunkProgress (uploadId : String) (totalChunks uploadedChunks : Nat) :
    ProgressRecord :=
  ⟨uploadId, totalChunks, uploadedChunks,
   jsRoundDiv (100 * uploadedChunks) totalChunks⟩

/-- Errors thrown by `uploadFileInChunks`, one per `throw new Error`
site; each carries the interpolated `statusText`. -/
inductive UploadError where
  | sessionInit (statusText : String)
  | chunkUpload (index : Nat) (statusText : String)
  | completeFailed (statusText : String)
deriving DecidableEq

/-- Observable events of one run of `uploadFileInChunks`: the requests
issued (with the data each carries) and the callbacks invoked, in
program order. -/
inductive Event where
  | initRequest (filename fileType : String) (fileSize totalChunks : Nat)
  | chunkRequest (uploadId : String) (chunkIndex : Nat) (data : List Nat)
  | progressCallback (r : ProgressRecord)
  | completeRequest (uploadId : String)
  | successCallback (result : String)
  | errorCallback (e : UploadError)
deriving DecidableEq

/-- What a `fetch` resolves to: the `ok` flag and `statusText`.  A
rejected `fetch` (network failure) and a non-2xx response take the same
`catch` path in the source, so both are modelled by `ok = false`. -/
structure Response where
  ok : Bool
  statusText : String
deriving DecidableEq

/-- The network oracle for one run: the init response and the
`uploadId` parsed from its body, the response to the chunk request of
each index, and the complete response with its parsed JSON body. -/
structure Transport where
  initResp : Response
  uploadId : String
  chunkResp : Nat → Response
  completeResp : Response
  completeBody : String

/-- The `for (let i = 0; i < totalChunks; i++)` loop of
`uploadFileInChunks`, over the enumerated chunk list, carrying the
`uploadedChunks` counter.  Each iteration posts the chunk; on success
it increments the counter and invokes `onProgress`, on failure it
throws `chunkUpload i` and the loop stops. -/
def uploadChunksLoop (uploadId : String) (t : Transport) (total : Nat) :
    List (Nat × Blob) → Nat → List Event × Option UploadError
  | [], _ => ([], none)
  | (i, c) :: rest, uploaded =>
    if (t.chunkResp i).ok then
      let r := uploadChunksLoop uploadId t total rest (uploaded + 1)
      (Event.chunkRequest uploadId i c.data ::
        Event.progressCallback (chunkProgress uploadId total (uploaded + 1)) :: r.1,
       r.2)
    else
      ([Event.chunkRequest uploadId i c.data],
       some (UploadError.chunkUpload i (t.chunkResp i).statusText))

/-- Model of `uploadFileInChunks(url, file, headers, metadata,
onProgress, onError, onSuccess, chunkSize)`: returns the event trace
and the promise outcome.  Every thrown error first invokes `onError`
(the `errorCallback` event) and then rejects the promise
(`Except.error`); a successful run invokes `onSuccess` with the parsed
complete body and returns it. -/
def uploadFileInChunks (t : Transport) (f : JSFile) (C : Nat) :
    List Event × Except UploadError String :=
  let chunks := createFileChunks f C
  let totalChunks := chunks.length
  let initEv := Event.initRequest f.name f.type f.size totalChunks
  if t.initResp.ok then
    let uploadId := t.uploadId
    let r := uploadChunksLoop uploadId t totalChunks chunks.enum 0
    match r.2 with
    | some e => (initEv :: r.1 ++ [Event.errorCallback e], Except.error e)
    | none =>
      if t.completeResp.ok then
        (initEv :: r.1 ++
          [Event.completeRequest uploadId, Event.successCallback t.completeBody],
         Except.ok t.completeBody)
      else
        (initEv :: r.1 ++
          [Event.completeRequest uploadId,
           Event.errorCallback (UploadError.completeFailed t.completeResp.statusText)],
         Except.error (UploadError.completeFailed t.completeResp.statusText))
  else
    ([initEv, Event.errorCallback (UploadError.sessionInit t.initResp.statusText)],
     Except.error (UploadError.sessionInit t.initResp.statusText))

/-- Observable events of `abortChunkedUpload`: the abort request and
the `console.error` call of its `catch` block. -/
inductive AbortEvent where
  | abortRequest (uploadId : String)
  | consoleError (msg : String)
deriving DecidableEq

/-- Network oracle for `abortChunkedUpload`: the abort response and its
parsed JSON body. -/
structure AbortTransport where
  resp : Response
  respBody : String

/-- Model of `abortChunkedUpload(url, uploadId, headers)`.  On a non-ok
response the function throws; its `catch` logs via `console.error` and
then rethrows, so the promise still rejects. -/
def abortChunkedUpload (t : AbortTransport) (uploadId : String) :
    List AbortEvent × Except String String :=
  if t.resp.ok then
    ([AbortEvent.abortRequest uploadId], Except.ok t.respBody)
  else
    ([AbortEvent.abortRequest uploadId,
      AbortEvent.consoleError "Error aborting upload:"],
     Except.error ("Failed to abort upload: " ++ t.resp.statusText))

/-- The chunk index carried by a `chunkRequest` event, if any. -/
def sendIndexOf : Event → Option Nat
  | Event.chunkRequest _ i _ => some i
  | _ => none

/-- The record carried by a `progressCallback` event, if any. -/
def progressOf : Event → Option ProgressRecord
  | Event.progressCallback r => some r
  | _ => none

/-- The uploadId carried by a `completeRequest` event, if any. -/
def completeOf : Event → Option String
  | Event.completeRequest u => some u
  | _ => none

/-- The error carried by an `errorCallback` event, if any. -/
def errorOf : Event → Option UploadError
  | Event.errorCallback e => some e
  | _ => none

/-- The result carried by a `successCallback` event, if any. -/
def successOf : Event → Option String
  | Event.successCallback s => some s
  | _ => none

/-- Indices of the chunk requests of a trace, in order. -/
def sentIndices (evs : List Event) : List Nat := evs.filterMap sendIndexOf

/-- The progress records reported by a trace, in order. -/
def progressRecords (evs : List Event) : List ProgressRecord :=
  evs.filterMap progressOf

/-- The `uploadedChunks` values reported by a trace, in order. -/
def progressCounts (evs : List Event) : List Nat :=
  (progressRecords evs).map ProgressRecord.uploadedChunks

/-- The complete requests of a trace, in order. -/
def completeRequests (evs : List Event) : List String :=
  evs.filterMap completeOf

/-- The `onError` invocations of a trace, in order. -/
def errorCalls (evs : List Event) : List UploadError := evs.filterMap errorOf

/-- The `onSuccess` invocations of a trace, in order. -/
def successCalls (evs : List Event) : List String := evs.filterMap successOf

/-- Whether an event belongs to the chunk-transmission level: a chunk
request or the progress callback acknowledging one. -/
def isChunkLevel : Event → Bool
  | Event.chunkRequest _ _ _ => true
  | Event.progressCallback _ => true
  | _ => false

/-- The expected chunk-level trace over a list of indexed chunks: each
chunk request immediately followed by the progress callback for its
acknowledgment, before the next request. -/
def eventsOfChunks (uploadId : String) (total : Nat) :
    List (Nat × Blob) → List Event
  | [] => []
  | p :: ps =>
    Event.chunkRequest uploadId p.1 p.2.data ::
      Event.progressCallback (chunkProgress uploadId total (p.1 + 1)) ::
        eventsOfChunks uploadId total ps

/-- The trace suffix after a fully successful chunk loop: the complete
request, then `onSuccess` or `onError` according to the response. -/
def completionTail (t : Transport) : List Event :=
  if t.completeResp.ok then
    [Event.completeRequest t.uploadId, Event.successCallback t.completeBody]
  else
    [Event.completeRequest t.uploadId,
     Event.errorCallback (UploadError.completeFailed t.completeResp.statusText)]

/-- The promise outcome after a fully successful chunk loop. -/
def completionResult (t : Transport) : Except UploadError String :=
  if t.completeResp.ok then Except.ok t.completeBody
  else Except.error (UploadError.completeFailed t.completeResp.statusText)

/-- The partition properties claimed of `createFileChunks` for a file
of size `S` and chunk size `C`: closed form of the ranges, count
`⌈S/C⌉` (0 for the empty file), exact cover of `[0, S)`, contiguity of
consecutive ranges, strict ordering and disjointness, every chunk of
length `C` except possibly the last, which is nonempty and at most
`C`. -/
def ChunkPartitionSpec (S C : Nat) : Prop :=
  chunkRangesFrom S C 0 =
      (List.range ((S + C - 1) / C)).map (fun i => (i * C, min ((i + 1) * C) S))
  ∧ (chunkRangesFrom S C 0).length = (S + C - 1) / C
  ∧ (S = 0 → chunkRangesFrom S C 0 = [])
  ∧ (∀ x : Nat, x < S ↔ ∃ r ∈ chunkRangesFrom S C 0, r.1 ≤ x ∧ x < r.2)
  ∧ (∀ i j : Fin (chunkRangesFrom S C 0).length, j.1 = i.1 + 1 →
      ((chunkRangesFrom S C 0).get i).2 = ((chunkRangesFrom S C 0).get j).1)
  ∧ (∀ i j : Fin (chunkRangesFrom S C 0).length, i.1 < j.1 →
      ((chunkRangesFrom S C 0).get i).2 ≤ ((chunkRangesFrom S C 0).get j).1)
  ∧ (∀ i j : Fin (chunkRangesFrom S C 0).length, i.1 < j.1 →
      ((chunkRangesFrom S C 0).get i).1 < ((chunkRangesFrom S C 0).get j).1)
  ∧ (∀ i : Fin (chunkRangesFrom S C 0).length,
      i.1 + 1 < (chunkRangesFrom S C 0).length →
      ((chunkRangesFrom S C 0).get i).2 - ((chunkRangesFrom S C 0).get i).1 = C)
  ∧ (∀ r ∈ chunkRangesFrom S C 0, 0 < r.2 - r.1 ∧ r.2 - r.1 ≤ C)
  ∧ (∀ f : JSFile, f.size = S →
      (createFileChunks f C).map Blob.range = chunkRangesFrom S C 0)

-- Concrete fixtures used by witnesses and counterexamples.

/-- A 2xx response. -/
def okResponse : Response := ⟨true, "OK"⟩

/-- A non-2xx response. -/
def failResponse : Response := ⟨false, "Internal Server Error"⟩

/-- A transport where every request succeeds. -/
def tOk : Transport := ⟨okResponse, "u", fun _ => okResponse, okResponse, "artifact"⟩

/-- A transport whose init request fails. -/
def tInitFail : Transport :=
  ⟨failResponse, "u", fun _ => okResponse, okResponse, "artifact"⟩

/-- A transport where the chunk request of index 1 fails and everything
else succeeds. -/
def tChunk1Fail : Transport :=
  ⟨okResponse, "u", fun j => if j = 1 then failResponse else okResponse,
   okResponse, "artifact"⟩

/-- An abort transport whose abort request fails. -/
def tAbortFail : AbortTransport := ⟨failResponse, "gone"⟩

/-- A three-byte file (three chunks at chunk size 1). -/
def file3 : JSFile := ⟨"a.txt", "text/plain", [10, 20, 30]⟩

/-- Another three-byte file with different contents. -/
def fileB3 : JSFile := ⟨"b.txt", "text/plain", [7, 8, 9]⟩

/-- A 201-byte file (201 chunks at chunk size 1). -/
def file201 : JSFile :=
  ⟨"big.bin", "application/octet-stream", List.replicate 201 0⟩

-- Stability of `chunkRangesGo` in its fuel argument.

/-- Any fuel at least `S - start` computes the same range list. -/
theorem chunkRangesGo_stable (S C : Nat) :
    ∀ fuel₁ fuel₂ start, S - start ≤ fuel₁ → S - start ≤ fuel₂ →
      chunkRangesGo S C start fuel₁ = chunkRangesGo S C start fuel₂ := by
  intro fuel₁
  induction fuel₁ with
  | zero =>
    intro fuel₂ start h₁ h₂
    have hs : ¬ start < S := by omega
    cases fuel₂ with
    | zero => rfl
    | succ n => simp [chunkRangesGo, hs]
  | succ n ih =>
    intro fuel₂ start h₁ h₂
    by_cases hs : start < S
    · have hf₂ : ∃ m, fuel₂ = m + 1 := ⟨fuel₂ - 1, by omega⟩
      obtain ⟨m, rfl⟩ := hf₂
      by_cases hC : 0 < C
      · simp only [chunkRangesGo, if_pos hs, if_pos hC]
        have he : start < min (start + C) S := by omega
        have h₁' : S - min (start + C) S ≤ n := by omega
        have h₂' : S - min (start + C) S ≤ m := by omega
        rw [ih m (min (start + C) S) h₁' h₂']
      · simp [chunkRangesGo, hs, hC]
    · cases fuel₂ with
      | zero => simp [chunkRangesGo, hs]
      | succ m => simp [chunkRangesGo, hs]

/-- Unfolding equation for `chunkRangesFrom`: it satisfies exactly the
recurrence of the source loop. -/
theorem chunkRangesFrom_eq (S C start : Nat) :
    chunkRangesFrom S C start =
      if start < S then
        if 0 < C then
          (start, min (start + C) S) :: chunkRangesFrom S C (min (start + C) S)
        else []
      else [] := by
  by_cases hs : start < S
  · have : ∃ m, S - start = m + 1 := ⟨S - start - 1, by omega⟩
    obtain ⟨m, hm⟩ := this
    by_cases hC : 0 < C
    · simp only [chunkRangesFrom, hm, chunkRangesGo, if_pos hs, if_pos hC]
      rw [chunkRangesGo_stable S C m (S - min (start + C) S) (min (start + C) S)
        (by omega) (le_refl _)]
    · simp [chunkRangesFrom, hm, chunkRangesGo, hs, hC]
  · simp [chunkRangesFrom, show S - start = 0 by omega, chunkRangesGo, hs]

-- Arithmetic helpers about the ceiling division `(S + C - 1) / C`.

/-- Every index below the chunk count starts strictly inside the file. -/
theorem mul_lt_of_lt_ceilDiv (S C i : Nat) (hC : 0 < C)
    (hi : i < (S + C - 1) / C) : i * C < S := by
  have h1 : (i + 1) * C ≤ ((S + C - 1) / C) * C :=
    Nat.mul_le_mul_right C hi
  have h2 : ((S + C - 1) / C) * C ≤ S + C - 1 := Nat.div_mul_le_self _ _
  have h3 : (i + 1) * C = i * C + C := by ring
  have h4 : i * C + C ≤ S + C - 1 := by rw [← h3]; exact le_trans h1 h2
  revert h4
  generalize i * C = A
  intro h4
  omega

/-- Offsets inside the file map to indices below the chunk count. -/
theorem div_lt_ceilDiv (S C x : Nat) (hC : 0 < C) (hx : x < S) :
    x / C < (S + C - 1) / C := by
  have hS : 1 ≤ S := by omega
  rw [show S + C - 1 = (S - 1) + C from by omega, Nat.add_div_right _ hC]
  exact Nat.lt_succ_of_le (Nat.div_le_div_right (by omega))

/-- Any offset is below the end of its own chunk. -/
theorem lt_div_succ_mul (x C : Nat) (hC : 0 < C) : x < (x / C + 1) * C := by
  have h1 := Nat.div_add_mod x C
  have h2 := Nat.mod_lt x hC
  have h3 : (x / C + 1) * C = C * (x / C) + C := by ring
  rw [h3]
  revert h1 h2
  generalize C * (x / C) = A
  generalize x % C = B
  intro h1 h2
  omega

/-- Closed form of the loop of `createFileChunks` from an arbitrary
start offset, for a positive chunk size. -/
theorem chunkRangesFrom_closed_aux (S C : Nat) (hC : 0 < C) :
    ∀ fuel start, S - start ≤ fuel →
      chunkRangesFrom S C start =
        (List.range ((S - start + C - 1) / C)).map
          (fun i => (start + i * C, min (start + (i + 1) * C) S)) := by
  intro fuel
  induction fuel with
  | zero =>
    intro start h
    have hs : ¬ start < S := by omega
    rw [chunkRangesFrom_eq, if_neg hs,
      show S - start + C - 1 = C - 1 from by omega, Nat.div_eq_of_lt (by omega)]
    rfl
  | succ n ih =>
    intro start h
    by_cases hs : start < S
    · rw [chunkRangesFrom_eq, if_pos hs, if_pos hC]
      by_cases hse : start + C < S
      · have he : min (start + C) S = start + C := by omega
        rw [he, ih (start + C) (by omega),
          show S - start + C - 1 = (S - start - 1) + C from by omega,
          Nat.add_div_right _ hC,
          show S - (start + C) + C - 1 = S - start - 1 from by omega,
          List.range_succ_eq_map, List.map_cons, List.map_map]
        congr 1
        · rw [Prod.mk.injEq]
          constructor <;> omega
        · apply congrArg (fun h => List.map h (List.range ((S - start - 1) / C)))
          funext i
          simp only [Function.comp, Nat.succ_eq_add_one]
          rw [Prod.mk.injEq]
          constructor
          · ring
          · congr 1
            ring
      · have he : min (start + C) S = S := by omega
        rw [he, ih S (by omega),
          show S - S + C - 1 = C - 1 from by omega, Nat.div_eq_of_lt (by omega)]
        have h1 : (S - start + C - 1) / C = 1 := by
          apply Nat.div_eq_of_lt_le
          · omega
          · omega
        rw [h1, List.range_zero, List.map_nil,
          show List.range 1 = [0] from rfl, List.map_cons, List.map_nil]
        have h2 : (start + 0 * C, min (start + (0 + 1) * C) S) = (start, S) := by
          rw [Prod.mk.injEq]
          constructor <;> omega
        rw [h2]
    · rw [chunkRangesFrom_eq, if_neg hs,
        show S - start + C - 1 = C - 1 from by omega, Nat.div_eq_of_lt (by omega)]
      rfl

/-- Closed form of `chunkRangesFrom S C 0` for a positive chunk size:
the `i`-th range is `[i·C, min((i+1)·C, S))`, and there are `⌈S/C⌉`
of them. -/
theorem chunkRangesFrom_zero_closed (S C : Nat) (hC : 0 < C) :
    chunkRangesFrom S C 0 =
      (List.range ((S + C - 1) / C)).map
        (fun i => (i * C, min ((i + 1) * C) S)) := by
  rw [chunkRangesFrom_closed_aux S C hC S 0 (by omega)]
  simp

/-- Element form of the closed range list. -/
theorem chunkRangesFrom_get (S C : Nat) (hC : 0 < C)
    (i : Fin (chunkRangesFrom S C 0).length) :
    (chunkRangesFrom S C 0).get i = (i.1 * C, min ((i.1 + 1) * C) S) := by
  rw [List.get_eq_getElem]
  simp only [chunkRangesFrom_zero_closed S C hC, List.getElem_map,
    List.getElem_range]

/-- Length of the range list: the ceiling `⌈S/C⌉`. -/
theorem chunkRangesFrom_length (S C : Nat) (hC : 0 < C) :
    (chunkRangesFrom S C 0).length = (S + C - 1) / C := by
  rw [chunkRangesFrom_zero_closed S C hC]
  simp

/-- C1: for every file size `S ≥ 0` and chunk size `C > 0`,
`createFileChunks`'s loop produces an ordered, finite sequence of byte
ranges that are contiguous, non-overlapping and cover exactly `[0, S)`,
with `⌈S/C⌉` ranges (`0` when `S = 0`); every chunk has length `C`
except possibly the final one, which is nonempty and at most `C`. -/
theorem createFileChunks_partition (S C : Nat) (hC : 0 < C) :
    ChunkPartitionSpec S C := by
  have hclosed := chunkRangesFrom_zero_closed S C hC
  have hlen := chunkRangesFrom_length S C hC
  have hget := chunkRangesFrom_get S C hC
  refine ⟨hclosed, hlen, ?_, ?_, ?_, ?_, ?_, ?_, ?_, ?_⟩
  · intro hS
    subst hS
    rw [hclosed, show (0 + C - 1) / C = 0 from Nat.div_eq_of_lt (by omega)]
    rfl
  · intro x
    constructor
    · intro hx
      refine ⟨(x / C * C, min ((x / C + 1) * C) S), ?_, ?_, ?_⟩
      · rw [hclosed]
        exact List.mem_map_of_mem _
          (List.mem_range.mpr (div_lt_ceilDiv S C x hC hx))
      · exact Nat.div_mul_le_self x C
      · exact lt_min (lt_div_succ_mul x C hC) hx
    · rintro ⟨r, hr, h1, h2⟩
      rw [hclosed] at hr
      obtain ⟨i, hi, rfl⟩ := List.mem_map.mp hr
      exact lt_of_lt_of_le h2 (min_le_right _ _)
  · intro i j hj
    rw [hget i, hget j]
    have hjlt : i.1 + 1 < (S + C - 1) / C := by
      rw [← hlen, ← hj]
      exact j.2
    have h2 : (i.1 + 1) * C < S := mul_lt_of_lt_ceilDiv S C (i.1 + 1) hC hjlt
    rw [hj]
    exact min_eq_left (le_of_lt h2)
  · intro i j hij
    rw [hget i, hget j]
    have h1 : (i.1 + 1) * C ≤ j.1 * C := Nat.mul_le_mul_right C (by omega)
    exact le_trans (min_le_left _ _) h1
  · intro i j hij
    rw [hget i, hget j]
    exact mul_lt_mul_of_pos_right hij hC
  · intro i hi
    rw [hget i]
    have hl : i.1 + 1 < (S + C - 1) / C := by rw [← hlen]; exact hi
    have h2 : (i.1 + 1) * C < S := mul_lt_of_lt_ceilDiv S C (i.1 + 1) hC hl
    have h3 : (i.1 + 1) * C = i.1 * C + C := by ring
    omega
  · intro r hr
    rw [hclosed] at hr
    obtain ⟨i, hi, rfl⟩ := List.mem_map.mp hr
    have h2 : i * C < S := mul_lt_of_lt_ceilDiv S C i hC (List.mem_range.mp hi)
    have h3 : (i + 1) * C = i * C + C := by ring
    constructor <;> omega
  · intro f hf
    rw [createFileChunks, List.map_map]
    have hcomp : (Blob.range ∘ fun r : Nat × Nat => f.slice r.1 r.2) = id := by
      funext r
      cases r
      rfl
    rw [hcomp, List.map_id, hf]

/-- Witness for `createFileChunks_partition` at `S = 5`, `C = 2`. -/
theorem createFileChunks_partition_witness : 0 < 2 ∧ ChunkPartitionSpec 5 2 :=
  ⟨by decide, createFileChunks_partition 5 2 (by decide)⟩

-- The chunk loop of `uploadFileInChunks`.

/-- Bounds of enumerated indices. -/
theorem mem_enumFrom_bounds {α : Type} {p : Nat × α} :
    ∀ {l : List α} {k : Nat}, p ∈ List.enumFrom k l →
      k ≤ p.1 ∧ p.1 < k + l.length := by
  intro l
  induction l with
  | nil => intro k h; simp [List.enumFrom] at h
  | cons c cs ih =>
    intro k h
    rw [List.enumFrom] at h
    rcases List.mem_cons.mp h with h1 | h1
    · subst h1
      simp
    · have := ih h1
      constructor <;> [omega; (simp only [List.length_cons]; omega)]

/-- The chunk loop when every chunk response succeeds: the trace is the
alternating request/progress sequence and no error is raised. -/
theorem uploadChunksLoop_ok (uid : String) (t : Transport) (total : Nat) :
    ∀ (cs : List Blob) (k : Nat),
      (∀ p ∈ List.enumFrom k cs, (t.chunkResp p.1).ok = true) →
      uploadChunksLoop uid t total (List.enumFrom k cs) k =
        (eventsOfChunks uid total (List.enumFrom k cs), none) := by
  intro cs
  induction cs with
  | nil => intro k _; rfl
  | cons c cs ih =>
    intro k hok
    have hk : (t.chunkResp k).ok = true :=
      hok (k, c) (by rw [List.enumFrom]; exact List.mem_cons_self _ _)
    have hrest : ∀ p ∈ List.enumFrom (k + 1) cs, (t.chunkResp p.1).ok = true :=
      fun p hp => hok p (by rw [List.enumFrom]; exact List.mem_cons_of_mem _ hp)
    rw [List.enumFrom]
    simp only [uploadChunksLoop, hk, if_true, ih (k + 1) hrest, eventsOfChunks]

/-- The chunk loop when the chunk response of index `m` fails and every
earlier one succeeds: requests go out for `k..m` only, progress is
reported for `k..m-1`, and the loop raises `chunkUpload m`. -/
theorem uploadChunksLoop_fail (uid : String) (t : Transport) (total : Nat) :
    ∀ (cs : List Blob) (k m : Nat) (hk : k ≤ m) (hm : m - k < cs.length),
      (∀ j, k ≤ j → j < m → (t.chunkResp j).ok = true) →
      (t.chunkResp m).ok = false →
      uploadChunksLoop uid t total (List.enumFrom k cs) k =
        (eventsOfChunks uid total (List.enumFrom k (cs.take (m - k))) ++
           [Event.chunkRequest uid m (cs.get ⟨m - k, hm⟩).data],
         some (UploadError.chunkUpload m (t.chunkResp m).statusText)) := by
  intro cs
  induction cs with
  | nil =>
    intro k m hk hm
    simp at hm
  | cons c cs ih =>
    intro k m hk hm hok hfail
    by_cases hkm : m = k
    · subst hkm
      have hfalse : (t.chunkResp m).ok = false := hfail
      rw [List.enumFrom]
      simp only [uploadChunksLoop, hfalse, Bool.false_eq_true, if_false,
        Nat.sub_self, List.take_zero, List.enumFrom, eventsOfChunks,
        List.nil_append, List.get]
    · have hklt : k < m := by omega
      have hk1 : (t.chunkResp k).ok = true := hok k (le_refl k) hklt
      have hm1 : m - (k + 1) < cs.length := by
        simp only [List.length_cons] at hm
        omega
      have hok1 : ∀ j, k + 1 ≤ j → j < m → (t.chunkResp j).ok = true :=
        fun j h1 h2 => hok j (by omega) h2
      have hrec := ih (k + 1) m (by omega) hm1 hok1 hfail
      have h5 : List.take (m - k) (c :: cs) = c :: List.take (m - (k + 1)) cs := by
        rw [show m - k = (m - (k + 1)) + 1 from by omega, List.take_succ_cons]
      have h6 : (c :: cs).get ⟨m - k, hm⟩ = cs.get ⟨m - (k + 1), hm1⟩ := by
        rw [List.get_eq_getElem, List.get_eq_getElem]
        simp only [show m - k = (m - (k + 1)) + 1 from by omega,
          List.getElem_cons_succ]
      rw [List.enumFrom]
      simp only [uploadChunksLoop, hk1, if_true, hrec]
      rw [h6, h5, List.enumFrom, eventsOfChunks]
      simp only [List.cons_append]

-- Trace projections of the alternating chunk-level sequence.

/-- The requests of the alternating sequence: one per index, in order. -/
theorem sentIndices_eventsOfChunks (uid : String) (total : Nat) :
    ∀ l : List (Nat × Blob),
      sentIndices (eventsOfChunks uid total l) = l.map Prod.fst := by
  intro l
  induction l with
  | nil => rfl
  | cons p ps ih =>
    simp only [eventsOfChunks, sentIndices, List.filterMap_cons, sendIndexOf,
      List.map_cons]
    rw [← sentIndices, ih]

/-- The progress records of the alternating sequence: index + 1 each. -/
theorem progressRecords_eventsOfChunks (uid : String) (total : Nat) :
    ∀ l : List (Nat × Blob),
      progressRecords (eventsOfChunks uid total l) =
        l.map (fun p => chunkProgress uid total (p.1 + 1)) := by
  intro l
  induction l with
  | nil => rfl
  | cons p ps ih =>
    simp only [eventsOfChunks, progressRecords, List.filterMap_cons, progressOf,
      List.map_cons]
    rw [← progressRecords, ih]

/-- The alternating sequence contains no complete request. -/
theorem completeRequests_eventsOfChunks (uid : String) (total : Nat) :
    ∀ l : List (Nat × Blob),
      completeRequests (eventsOfChunks uid total l) = [] := by
  intro l
  induction l with
  | nil => rfl
  | cons p ps ih =>
    simp only [eventsOfChunks, completeRequests, List.filterMap_cons, completeOf]
    exact ih

/-- The alternating sequence contains no error callback. -/
theorem errorCalls_eventsOfChunks (uid : String) (total : Nat) :
    ∀ l : List (Nat × Blob),
      errorCalls (eventsOfChunks uid total l) = [] := by
  intro l
  induction l with
  | nil => rfl
  | cons p ps ih =>
    simp only [eventsOfChunks, errorCalls, List.filterMap_cons, errorOf]
    exact ih

/-- The alternating sequence contains no success callback. -/
theorem successCalls_eventsOfChunks (uid : String) (total : Nat) :
    ∀ l : List (Nat × Blob),
      successCalls (eventsOfChunks uid total l) = [] := by
  intro l
  induction l with
  | nil => rfl
  | cons p ps ih =>
    simp only [eventsOfChunks, successCalls, List.filterMap_cons, successOf]
    exact ih

/-- The alternating sequence is purely chunk-level. -/
theorem filter_isChunkLevel_eventsOfChunks (uid : String) (total : Nat) :
    ∀ l : List (Nat × Blob),
      (eventsOfChunks uid total l).filter isChunkLevel =
        eventsOfChunks uid total l := by
  intro l
  induction l with
  | nil => rfl
  | cons p ps ih =>
    simp only [eventsOfChunks, List.filter_cons, isChunkLevel, if_true]
    rw [ih]

-- Shape of the whole run in the three scenarios.

/-- Failing init: only the init request and the error callback happen,
and the promise rejects with the session-init error. -/
theorem uploadFileInChunks_initFail_shape (t : Transport) (f : JSFile) (C : Nat)
    (h : t.initResp.ok = false) :
    uploadFileInChunks t f C =
      ([Event.initRequest f.name f.type f.size (totalChunksOf f C),
        Event.errorCallback (UploadError.sessionInit t.initResp.statusText)],
       Except.error (UploadError.sessionInit t.initResp.statusText)) := by
  simp [uploadFileInChunks, h, totalChunksOf]

/-- Fully successful chunk loop: the trace is init, the alternating
chunk sequence, then the completion tail; the outcome is the completion
result. -/
theorem uploadFileInChunks_ok_shape (t : Transport) (f : JSFile) (C : Nat)
    (hinit : t.initResp.ok = true)
    (hok : ∀ j, j < totalChunksOf f C → (t.chunkResp j).ok = true) :
    uploadFileInChunks t f C =
      (Event.initRequest f.name f.type f.size (totalChunksOf f C) ::
        (eventsOfChunks t.uploadId (totalChunksOf f C)
            (createFileChunks f C).enum ++ completionTail t),
       completionResult t) := by
  have hloop := uploadChunksLoop_ok t.uploadId t (totalChunksOf f C)
    (createFileChunks f C) 0
    (fun p hp => hok p.1 (by
      have hb := mem_enumFrom_bounds hp
      simpa [totalChunksOf] using hb.2))
  rw [show List.enumFrom 0 (createFileChunks f C) = (createFileChunks f C).enum
    from rfl] at hloop
  simp only [uploadFileInChunks, hinit, if_true]
  rw [show (createFileChunks f C).length = totalChunksOf f C from rfl, hloop]
  cases hcomp : t.completeResp.ok <;>
    simp [completionTail, completionResult, hcomp]

/-- A failing chunk at index `i` (earlier ones fine): the trace is
init, the alternating sequence for indices below `i`, the request of
chunk `i`, then the error callback; the promise rejects with
`chunkUpload i` and no complete request is ever issued. -/
theorem uploadFileInChunks_chunkFail_shape (t : Transport) (f : JSFile)
    (C i : Nat) (hinit : t.initResp.ok = true) (hi : i < totalChunksOf f C)
    (hok : ∀ j, j < i → (t.chunkResp j).ok = true)
    (hfail : (t.chunkResp i).ok = false) :
    uploadFileInChunks t f C =
      (Event.initRequest f.name f.type f.size (totalChunksOf f C) ::
        ((eventsOfChunks t.uploadId (totalChunksOf f C)
            (List.enumFrom 0 ((createFileChunks f C).take i)) ++
          [Event.chunkRequest t.uploadId i
              ((createFileChunks f C).get ⟨i, hi⟩).data]) ++
          [Event.errorCallback
              (UploadError.chunkUpload i (t.chunkResp i).statusText)]),
       Except.error (UploadError.chunkUpload i (t.chunkResp i).statusText)) := by
  have hm0 : i - 0 < (createFileChunks f C).length := by
    simpa [totalChunksOf] using hi
  have hloop := uploadChunksLoop_fail t.uploadId t (totalChunksOf f C)
    (createFileChunks f C) 0 i (by omega) hm0
    (fun j _ hj => hok j hj) hfail
  simp only [Nat.sub_zero] at hloop
  rw [show List.enumFrom 0 (createFileChunks f C) = (createFileChunks f C).enum
    from rfl] at hloop
  simp only [totalChunksOf] at hloop
  simp only [uploadFileInChunks, hinit, if_true]
  rw [hloop]
  rfl

-- Projections distribute over appended traces.

/-- Requests of a concatenated trace. -/
theorem sentIndices_append (a b : List Event) :
    sentIndices (a ++ b) = sentIndices a ++ sentIndices b := by
  simp [sentIndices, List.filterMap_append]

/-- Progress records of a concatenated trace. -/
theorem progressRecords_append (a b : List Event) :
    progressRecords (a ++ b) = progressRecords a ++ progressRecords b := by
  simp [progressRecords, List.filterMap_append]

/-- Complete requests of a concatenated trace. -/
theorem completeRequests_append (a b : List Event) :
    completeRequests (a ++ b) = completeRequests a ++ completeRequests b := by
  simp [completeRequests, List.filterMap_append]

/-- Error callbacks of a concatenated trace. -/
theorem errorCalls_append (a b : List Event) :
    errorCalls (a ++ b) = errorCalls a ++ errorCalls b := by
  simp [errorCalls, List.filterMap_append]

/-- Success callbacks of a concatenated trace. -/
theorem successCalls_append (a b : List Event) :
    successCalls (a ++ b) = successCalls a ++ successCalls b := by
  simp [successCalls, List.filterMap_append]

/-- A record in the progress projection comes from a progress-callback
event of the trace. -/
theorem progressCallback_mem_of_mem_progressRecords {r : ProgressRecord}
    {evs : List Event} (h : r ∈ progressRecords evs) :
    Event.progressCallback r ∈ evs := by
  obtain ⟨e, he, hfe⟩ := List.mem_filterMap.mp h
  cases e <;> simp [progressOf] at hfe
  exact hfe ▸ he

-- Arithmetic of the reported percentage.

/-- The percentage reported for the final chunk is exactly 100. -/
theorem jsRoundDiv_total (n : Nat) (hn : 0 < n) :
    jsRoundDiv (100 * n) n = 100 := by
  unfold jsRoundDiv
  rw [show 2 * (100 * n) + n = n + 2 * n * 100 from by ring,
    Nat.add_mul_div_left n 100 (show 0 < 2 * n from by omega),
    Nat.div_eq_of_lt (by omega)]

/-- With fewer than 200 chunks, every intermediate percentage is below
100. -/
theorem jsRoundDiv_lt_100 (n k : Nat) (hn : n < 200) (hk : k < n) :
    jsRoundDiv (100 * k) n < 100 := by
  unfold jsRoundDiv
  rw [Nat.div_lt_iff_lt_mul (show 0 < 2 * n from by omega)]
  omega

/-- Progress records of a fully successful chunk loop: one per chunk
index `j`, reporting `uploadedChunks = j + 1` and the rounded
percentage, in ascending order. -/
theorem progressRecords_ok_run (t : Transport) (f : JSFile) (C : Nat)
    (hinit : t.initResp.ok = true)
    (hok : ∀ j, j < totalChunksOf f C → (t.chunkResp j).ok = true) :
    progressRecords (uploadFileInChunks t f C).1 =
      (List.range (totalChunksOf f C)).map
        (fun j => chunkProgress t.uploadId (totalChunksOf f C) (j + 1)) := by
  rw [uploadFileInChunks_ok_shape t f C hinit hok]
  have h1 : progressRecords
      (Event.initRequest f.name f.type f.size (totalChunksOf f C) ::
        (eventsOfChunks t.uploadId (totalChunksOf f C)
            (createFileChunks f C).enum ++ completionTail t)) =
      progressRecords
        (eventsOfChunks t.uploadId (totalChunksOf f C)
            (createFileChunks f C).enum ++ completionTail t) := rfl
  rw [h1, progressRecords_append,
    progressRecords_eventsOfChunks t.uploadId (totalChunksOf f C)]
  have h2 : progressRecords (completionTail t) = [] := by
    unfold completionTail
    cases hcomp : t.completeResp.ok <;> simp [progressRecords, progressOf]
  rw [h2, List.append_nil]
  rw [show (fun p : Nat × Blob =>
      chunkProgress t.uploadId (totalChunksOf f C) (p.1 + 1)) =
    (fun j => chunkProgress t.uploadId (totalChunksOf f C) (j + 1)) ∘ Prod.fst
    from rfl]
  rw [← List.map_map, show (createFileChunks f C).enum =
    List.enumFrom 0 (createFileChunks f C) from rfl, List.enumFrom_map_fst,
    ← List.range_eq_range']
  rfl

/-- C2 (amended): after every successfully acknowledged chunk the
progress callback receives `{uploadId, totalChunks, uploadedChunks,
progress}` with `progress = round(uploadedChunks / totalChunks * 100)`,
in ascending order; the final chunk reports exactly 100; for uploads of
fewer than 200 chunks no earlier callback reports 100 (for 200 or more
chunks an earlier callback can already round to 100); a 3-chunk upload
reports the progress sequence `33, 67, 100`. -/
theorem uploadFileInChunks_progress_reporting (t : Transport) (f : JSFile)
    (C : Nat) (hinit : t.initResp.ok = true)
    (hok : ∀ j, j < totalChunksOf f C → (t.chunkResp j).ok = true) :
    progressRecords (uploadFileInChunks t f C).1 =
        (List.range (totalChunksOf f C)).map
          (fun j => chunkProgress t.uploadId (totalChunksOf f C) (j + 1))
    ∧ (0 < totalChunksOf f C →
        (chunkProgress t.uploadId (totalChunksOf f C)
            (totalChunksOf f C)).progress = 100)
    ∧ (totalChunksOf f C < 200 → ∀ k, k < totalChunksOf f C →
        (chunkProgress t.uploadId (totalChunksOf f C) k).progress < 100)
    ∧ (totalChunksOf f C = 3 →
        (progressRecords (uploadFileInChunks t f C).1).map
            ProgressRecord.progress = [33, 67, 100]) := by
  have hmain := progressRecords_ok_run t f C hinit hok
  refine ⟨hmain, ?_, ?_, ?_⟩
  · intro h
    simpa [chunkProgress] using jsRoundDiv_total (totalChunksOf f C) h
  · intro hn k hk
    simpa [chunkProgress] using jsRoundDiv_lt_100 (totalChunksOf f C) k hn hk
  · intro h3
    rw [hmain, h3]
    rfl

set_option maxRecDepth 16384 in
/-- Part of C2 is false as stated: with 201 chunks (201-byte file,
chunk size 1, all requests succeeding), the progress callback after
chunk 200 of 201 already reports `progress = 100` — that is,
`uploadedChunks = 200 < totalChunks = 201`, so the reported percentage
reaches exactly 100 strictly before the last chunk's acknowledgment. -/
theorem progress_100_before_last_ack :
    Event.progressCallback ⟨"u", 201, 200, 100⟩ ∈
        (uploadFileInChunks tOk file201 1).1
    ∧ totalChunksOf file201 1 = 201 := by
  constructor
  · have hshape := progressRecords_ok_run tOk file201 1 rfl (fun j _ => rfl)
    apply progressCallback_mem_of_mem_progressRecords
    rw [hshape]
    have h199 : (199 : Nat) ∈ List.range (totalChunksOf file201 1) := by decide
    have hmem := List.mem_map_of_mem
      (fun j => chunkProgress tOk.uploadId (totalChunksOf file201 1) (j + 1))
      h199
    have heq : chunkProgress tOk.uploadId (totalChunksOf file201 1) (199 + 1) =
        ⟨"u", 201, 200, 100⟩ := by decide
    exact heq ▸ hmem
  · rfl

/-- Witness for `uploadFileInChunks_progress_reporting` on a 3-byte
file with chunk size 1 (three chunks) and an all-success transport. -/
theorem uploadFileInChunks_progress_reporting_witness :
    tOk.initResp.ok = true
    ∧ (progressRecords (uploadFileInChunks tOk file3 1).1).map
        ProgressRecord.progress = [33, 67, 100] :=
  ⟨by decide,
   (uploadFileInChunks_progress_reporting tOk file3 1 (by decide)
      (fun j _ => rfl)).2.2.2 (by decide)⟩

/-- C3: if the chunk request of index `i` fails (earlier ones having
succeeded), the run rejects with a chunk-upload error identifying `i`,
the transmission loop stops — chunks are requested exactly for indices
`0..i`, none higher, with no retry of `i` — no complete request is ever
issued, and the error is surfaced once through the error callback. -/
theorem chunk_failure_stops_upload (t : Transport) (f : JSFile) (C i : Nat)
    (hinit : t.initResp.ok = true) (hi : i < totalChunksOf f C)
    (hok : ∀ j, j < i → (t.chunkResp j).ok = true)
    (hfail : (t.chunkResp i).ok = false) :
    (uploadFileInChunks t f C).2 =
        Except.error (UploadError.chunkUpload i (t.chunkResp i).statusText)
    ∧ sentIndices (uploadFileInChunks t f C).1 = List.range (i + 1)
    ∧ completeRequests (uploadFileInChunks t f C).1 = []
    ∧ errorCalls (uploadFileInChunks t f C).1 =
        [UploadError.chunkUpload i (t.chunkResp i).statusText] := by
  have hshape := uploadFileInChunks_chunkFail_shape t f C i hinit hi hok hfail
  rw [hshape]
  refine ⟨rfl, ?_, ?_, ?_⟩
  · have h0 : sentIndices
        (Event.initRequest f.name f.type f.size (totalChunksOf f C) ::
          ((eventsOfChunks t.uploadId (totalChunksOf f C)
              (List.enumFrom 0 ((createFileChunks f C).take i)) ++
            [Event.chunkRequest t.uploadId i
                ((createFileChunks f C).get ⟨i, hi⟩).data]) ++
            [Event.errorCallback
                (UploadError.chunkUpload i (t.chunkResp i).statusText)])) =
        (sentIndices (eventsOfChunks t.uploadId (totalChunksOf f C)
            (List.enumFrom 0 ((createFileChunks f C).take i))) ++ [i]) ++ [] := by
      rw [show sentIndices
          (Event.initRequest f.name f.type f.size (totalChunksOf f C) ::
            ((eventsOfChunks t.uploadId (totalChunksOf f C)
                (List.enumFrom 0 ((createFileChunks f C).take i)) ++
              [Event.chunkRequest t.uploadId i
                  ((createFileChunks f C).get ⟨i, hi⟩).data]) ++
              [Event.errorCallback
                  (UploadError.chunkUpload i (t.chunkResp i).statusText)])) =
        sentIndices
            ((eventsOfChunks t.uploadId (totalChunksOf f C)
                (List.enumFrom 0 ((createFileChunks f C).take i)) ++
              [Event.chunkRequest t.uploadId i
                  ((createFileChunks f C).get ⟨i, hi⟩).data]) ++
              [Event.errorCallback
                  (UploadError.chunkUpload i (t.chunkResp i).statusText)])
        from rfl]
      rw [sentIndices_append, sentIndices_append]
      rfl
    rw [h0, List.append_nil, sentIndices_eventsOfChunks,
      List.enumFrom_map_fst, List.length_take]
    have hmin : min i (createFileChunks f C).length = i :=
      min_eq_left (le_of_lt (by simpa [totalChunksOf] using hi))
    rw [hmin, ← List.range_eq_range', ← List.range_succ]
  · rw [show completeRequests
        (Event.initRequest f.name f.type f.size (totalChunksOf f C) ::
          ((eventsOfChunks t.uploadId (totalChunksOf f C)
              (List.enumFrom 0 ((createFileChunks f C).take i)) ++
            [Event.chunkRequest t.uploadId i
                ((createFileChunks f C).get ⟨i, hi⟩).data]) ++
            [Event.errorCallback
                (UploadError.chunkUpload i (t.chunkResp i).statusText)])) =
      completeRequests
          ((eventsOfChunks t.uploadId (totalChunksOf f C)
              (List.enumFrom 0 ((createFileChunks f C).take i)) ++
            [Event.chunkRequest t.uploadId i
                ((createFileChunks f C).get ⟨i, hi⟩).data]) ++
            [Event.errorCallback
                (UploadError.chunkUpload i (t.chunkResp i).statusText)])
      from rfl]
    rw [completeRequests_append, completeRequests_append,
      completeRequests_eventsOfChunks]
    rfl
  · rw [show errorCalls
        (Event.initRequest f.name f.type f.size (totalChunksOf f C) ::
          ((eventsOfChunks t.uploadId (totalChunksOf f C)
              (List.enumFrom 0 ((createFileChunks f C).take i)) ++
            [Event.chunkRequest t.uploadId i
                ((createFileChunks f C).get ⟨i, hi⟩).data]) ++
            [Event.errorCallback
                (UploadError.chunkUpload i (t.chunkResp i).statusText)])) =
      errorCalls
          ((eventsOfChunks t.uploadId (totalChunksOf f C)
              (List.enumFrom 0 ((createFileChunks f C).take i)) ++
            [Event.chunkRequest t.uploadId i
                ((createFileChunks f C).get ⟨i, hi⟩).data]) ++
            [Event.errorCallback
                (UploadError.chunkUpload i (t.chunkResp i).statusText)])
      from rfl]
    rw [errorCalls_append, errorCalls_append, errorCalls_eventsOfChunks]
    rfl

/-- Witness for `chunk_failure_stops_upload`: chunk 1 of 3 fails. -/
theorem chunk_failure_stops_upload_witness :
    (uploadFileInChunks tChunk1Fail file3 1).2 =
        Except.error (UploadError.chunkUpload 1
          (tChunk1Fail.chunkResp 1).statusText)
    ∧ sentIndices (uploadFileInChunks tChunk1Fail file3 1).1 =
        List.range (1 + 1)
    ∧ completeRequests (uploadFileInChunks tChunk1Fail file3 1).1 = []
    ∧ errorCalls (uploadFileInChunks tChunk1Fail file3 1).1 =
        [UploadError.chunkUpload 1 (tChunk1Fail.chunkResp 1).statusText] :=
  chunk_failure_stops_upload tChunk1Fail file3 1 1 (by decide) (by decide)
    (by decide) (by decide)

-- Projections over a cons cell.

/-- Requests contributed by the head event. -/
theorem sentIndices_cons (e : Event) (evs : List Event) :
    sentIndices (e :: evs) = (sendIndexOf e).toList ++ sentIndices evs := by
  rw [sentIndices, List.filterMap_cons]
  cases hse : sendIndexOf e <;> simp [hse, sentIndices]

/-- Progress records contributed by the head event. -/
theorem progressRecords_cons (e : Event) (evs : List Event) :
    progressRecords (e :: evs) =
      (progressOf e).toList ++ progressRecords evs := by
  rw [progressRecords, List.filterMap_cons]
  cases hse : progressOf e <;> simp [hse, progressRecords]

/-- Complete requests contributed by the head event. -/
theorem completeRequests_cons (e : Event) (evs : List Event) :
    completeRequests (e :: evs) =
      (completeOf e).toList ++ completeRequests evs := by
  rw [completeRequests, List.filterMap_cons]
  cases hse : completeOf e <;> simp [hse, completeRequests]

/-- Error callbacks contributed by the head event. -/
theorem errorCalls_cons (e : Event) (evs : List Event) :
    errorCalls (e :: evs) = (errorOf e).toList ++ errorCalls evs := by
  rw [errorCalls, List.filterMap_cons]
  cases hse : errorOf e <;> simp [hse, errorCalls]

/-- Success callbacks contributed by the head event. -/
theorem successCalls_cons (e : Event) (evs : List Event) :
    successCalls (e :: evs) = (successOf e).toList ++ successCalls evs := by
  rw [successCalls, List.filterMap_cons]
  cases hse : successOf e <;> simp [hse, successCalls]

/-- Progress counts of a concatenated trace. -/
theorem progressCounts_append (a b : List Event) :
    progressCounts (a ++ b) = progressCounts a ++ progressCounts b := by
  simp [progressCounts, progressRecords_append]

/-- C7: if the init request fails (rejected fetch or non-success
response), the run rejects with the session-init error, the error is
surfaced once through the error callback, and no chunk request — nor a
complete request — is ever sent. -/
theorem init_failure_sends_no_chunks (t : Transport) (f : JSFile) (C : Nat)
    (h : t.initResp.ok = false) :
    (uploadFileInChunks t f C).2 =
        Except.error (UploadError.sessionInit t.initResp.statusText)
    ∧ sentIndices (uploadFileInChunks t f C).1 = []
    ∧ completeRequests (uploadFileInChunks t f C).1 = []
    ∧ errorCalls (uploadFileInChunks t f C).1 =
        [UploadError.sessionInit t.initResp.statusText] := by
  rw [uploadFileInChunks_initFail_shape t f C h]
  exact ⟨rfl, rfl, rfl, rfl⟩

/-- Witness for `init_failure_sends_no_chunks` on a failing init. -/
theorem init_failure_sends_no_chunks_witness :
    (uploadFileInChunks tInitFail file3 1).2 =
        Except.error (UploadError.sessionInit tInitFail.initResp.statusText)
    ∧ sentIndices (uploadFileInChunks tInitFail file3 1).1 = []
    ∧ completeRequests (uploadFileInChunks tInitFail file3 1).1 = []
    ∧ errorCalls (uploadFileInChunks tInitFail file3 1).1 =
        [UploadError.sessionInit tInitFail.initResp.statusText] :=
  init_failure_sends_no_chunks tInitFail file3 1 (by decide)

/-- C10: on a fully successful upload the promise resolves with the
parsed JSON body of the complete response, `onSuccess` is invoked
exactly once with that same value, and `onError` is never invoked. -/
theorem upload_success_callbacks (t : Transport) (f : JSFile) (C : Nat)
    (hinit : t.initResp.ok = true)
    (hok : ∀ j, j < totalChunksOf f C → (t.chunkResp j).ok = true)
    (hcomp : t.completeResp.ok = true) :
    (uploadFileInChunks t f C).2 = Except.ok t.completeBody
    ∧ successCalls (uploadFileInChunks t f C).1 = [t.completeBody]
    ∧ errorCalls (uploadFileInChunks t f C).1 = [] := by
  rw [uploadFileInChunks_ok_shape t f C hinit hok]
  refine ⟨?_, ?_, ?_⟩
  · simp [completionResult, hcomp]
  · simp only [successCalls_cons, successCalls_append, successOf,
      successCalls_eventsOfChunks, completionTail, hcomp, if_true,
      Option.toList]
    rfl
  · simp only [errorCalls_cons, errorCalls_append, errorOf,
      errorCalls_eventsOfChunks, completionTail, hcomp, if_true,
      Option.toList]
    rfl

/-- Witness for `upload_success_callbacks` on a 3-chunk upload. -/
theorem upload_success_callbacks_witness :
    (uploadFileInChunks tOk file3 1).2 = Except.ok tOk.completeBody
    ∧ successCalls (uploadFileInChunks tOk file3 1).1 = [tOk.completeBody]
    ∧ errorCalls (uploadFileInChunks tOk file3 1).1 = [] :=
  upload_success_callbacks tOk file3 1 (by decide) (fun j _ => rfl) (by decide)

/-- C6: with every chunk response succeeding, `uploadFileInChunks`
requests each index of `[0, totalChunks)` exactly once, in strictly
ascending order (the request sequence is literally `0, 1, …,
totalChunks - 1`), and the chunk-level trace alternates request and
acknowledgment: each chunk's progress callback precedes the next
chunk's request, so at most one chunk request is in flight at a time
(no pipelining). -/
theorem chunks_sent_sequentially (t : Transport) (f : JSFile) (C : Nat)
    (hinit : t.initResp.ok = true)
    (hok : ∀ j, j < totalChunksOf f C → (t.chunkResp j).ok = true) :
    sentIndices (uploadFileInChunks t f C).1 =
        List.range (totalChunksOf f C)
    ∧ (uploadFileInChunks t f C).1.filter isChunkLevel =
        eventsOfChunks t.uploadId (totalChunksOf f C)
          (createFileChunks f C).enum := by
  rw [uploadFileInChunks_ok_shape t f C hinit hok]
  constructor
  · rw [sentIndices_cons, sentIndices_append, sentIndices_eventsOfChunks,
      List.enum_map_fst]
    have h2 : sentIndices (completionTail t) = [] := by
      unfold completionTail
      cases hcomp : t.completeResp.ok <;>
        simp [sentIndices_cons, sendIndexOf, sentIndices]
    rw [h2, List.append_nil]
    rfl
  · rw [List.filter_cons]
    have h0 : isChunkLevel
        (Event.initRequest f.name f.type f.size (totalChunksOf f C)) = false :=
      rfl
    rw [h0]
    simp only [Bool.false_eq_true, if_false, List.filter_append,
      filter_isChunkLevel_eventsOfChunks]
    have h2 : (completionTail t).filter isChunkLevel = [] := by
      unfold completionTail
      cases hcomp : t.completeResp.ok <;> simp [isChunkLevel]
    rw [h2, List.append_nil]

/-- Witness for `chunks_sent_sequentially` on a 3-chunk upload. -/
theorem chunks_sent_sequentially_witness :
    sentIndices (uploadFileInChunks tOk file3 1).1 =
        List.range (totalChunksOf file3 1)
    ∧ (uploadFileInChunks tOk file3 1).1.filter isChunkLevel =
        eventsOfChunks tOk.uploadId (totalChunksOf file3 1)
          (createFileChunks file3 1).enum :=
  chunks_sent_sequentially tOk file3 1 (by decide) (fun j _ => rfl)

/-- Whatever the chunk responses, the loop reports the counter values
`u+1, u+2, …, u+m` where `m` is the number of successful chunk
requests it makes. -/
theorem uploadChunksLoop_progressCounts (uid : String) (t : Transport)
    (total : Nat) :
    ∀ (l : List (Nat × Blob)) (u : Nat),
      ∃ m, progressCounts (uploadChunksLoop uid t total l u).1 =
            List.range' (u + 1) m
        ∧ m = ((sentIndices (uploadChunksLoop uid t total l u).1).filter
              (fun j => (t.chunkResp j).ok)).length := by
  intro l
  induction l with
  | nil => intro u; exact ⟨0, rfl, rfl⟩
  | cons p ps ih =>
    obtain ⟨i, c⟩ := p
    intro u
    by_cases hokc : (t.chunkResp i).ok
    · obtain ⟨m, h1, h2⟩ := ih (u + 1)
      refine ⟨m + 1, ?_, ?_⟩
      · simp only [uploadChunksLoop, hokc, if_true, progressCounts,
          progressRecords_cons, progressOf, sendIndexOf, Option.toList,
          List.map_append, List.map_cons, List.map_nil, List.nil_append]
        show [u + 1] ++
            progressCounts (uploadChunksLoop uid t total ps (u + 1)).1 =
          List.range' (u + 1) (m + 1)
        rw [h1, List.range'_succ]
        rfl
      · simp only [uploadChunksLoop, hokc, if_true, sentIndices_cons,
          sendIndexOf, Option.toList, List.nil_append]
        rw [List.singleton_append, List.filter_cons]
        simp only [hokc, if_true, List.length_cons]
        omega
    · have hfalse : (t.chunkResp i).ok = false := by simpa using hokc
      refine ⟨0, ?_, ?_⟩
      · simp only [uploadChunksLoop, hfalse, Bool.false_eq_true, if_false]
        rfl
      · simp only [uploadChunksLoop, hfalse, Bool.false_eq_true, if_false]
        rw [show sentIndices [Event.chunkRequest uid i c.data] = [i] from rfl,
          List.filter_cons]
        simp [hfalse]

/-- With a successful init, the run's trace is the init event, the loop
trace, and a tail holding no chunk request and no progress callback. -/
theorem uploadFileInChunks_trace_general (t : Transport) (f : JSFile)
    (C : Nat) (hinit : t.initResp.ok = true) :
    ∃ tail, (uploadFileInChunks t f C).1 =
        Event.initRequest f.name f.type f.size ((createFileChunks f C).length) ::
          ((uploadChunksLoop t.uploadId t ((createFileChunks f C).length)
              (createFileChunks f C).enum 0).1 ++ tail)
      ∧ sentIndices tail = [] ∧ progressCounts tail = [] := by
  cases hr : (uploadChunksLoop t.uploadId t ((createFileChunks f C).length)
      (createFileChunks f C).enum 0).2 with
  | some e =>
    refine ⟨[Event.errorCallback e], ?_, rfl, rfl⟩
    simp only [uploadFileInChunks, hinit, if_true, hr]
    exact List.cons_append _ _ _
  | none =>
    by_cases hcomp : t.completeResp.ok
    · refine ⟨[Event.completeRequest t.uploadId,
        Event.successCallback t.completeBody], ?_, rfl, rfl⟩
      simp only [uploadFileInChunks, hinit, if_true, hr, hcomp]
      exact List.cons_append _ _ _
    · have hcf : t.completeResp.ok = false := by simpa using hcomp
      refine ⟨[Event.completeRequest t.uploadId,
        Event.errorCallback
          (UploadError.completeFailed t.completeResp.statusText)], ?_, rfl, rfl⟩
      simp only [uploadFileInChunks, hinit, if_true, hr, hcf,
        Bool.false_eq_true, if_false]
      exact List.cons_append _ _ _

/-- Progress counts contributed by the head event. -/
theorem progressCounts_cons (e : Event) (evs : List Event) :
    progressCounts (e :: evs) =
      (progressOf e).toList.map ProgressRecord.uploadedChunks ++
        progressCounts evs := by
  simp [progressCounts, progressRecords_cons]

/-- C5: across one run of `uploadFileInChunks` — whatever the transport
does — the `uploadedChunks` values reported by successive progress
callbacks are exactly `1, 2, …, m`: they start at 1 for the first
acknowledged chunk, are non-decreasing, and increase by exactly 1 per
successful chunk transmission (`m` counts the successful chunk
requests of the run). -/
theorem progress_counts_consecutive (t : Transport) (f : JSFile) (C : Nat) :
    ∃ m, progressCounts (uploadFileInChunks t f C).1 = List.range' 1 m
      ∧ m = ((sentIndices (uploadFileInChunks t f C).1).filter
            (fun j => (t.chunkResp j).ok)).length := by
  by_cases hinit : t.initResp.ok
  · obtain ⟨tail, htr, hs, hp⟩ := uploadFileInChunks_trace_general t f C hinit
    obtain ⟨m, h1, h2⟩ := uploadChunksLoop_progressCounts t.uploadId t
      ((createFileChunks f C).length) (createFileChunks f C).enum 0
    refine ⟨m, ?_, ?_⟩
    · rw [htr, progressCounts_cons, progressCounts_append, hp]
      simp only [progressOf, Option.toList, List.map_nil, List.nil_append,
        List.append_nil]
      simpa using h1
    · rw [htr, sentIndices_cons, sentIndices_append, hs]
      simp only [sendIndexOf, Option.toList, List.nil_append, List.append_nil]
      simpa using h2
  · have hf : t.initResp.ok = false := by simpa using hinit
    rw [uploadFileInChunks_initFail_shape t f C hf]
    exact ⟨0, rfl, rfl⟩

/-- C4 is false as stated: on a concrete failing abort request the
failure is logged via `console.error` **and** the promise still
rejects — the abort failure is escalated to the caller, not swallowed
as best-effort cleanup. -/
theorem abort_failure_escalated :
    (abortChunkedUpload tAbortFail "u").1 =
        [AbortEvent.abortRequest "u",
         AbortEvent.consoleError "Error aborting upload:"]
    ∧ (abortChunkedUpload tAbortFail "u").2 =
        Except.error "Failed to abort upload: Internal Server Error" := by
  exact ⟨rfl, rfl⟩

/-- C4 (amended): when the abort request fails (rejected fetch or
non-success response), `abortChunkedUpload` logs the failure to the
console and then rethrows it: the failure is escalated to the caller
as a rejected promise, like every other failure of the protocol. -/
theorem abortChunkedUpload_logs_and_rethrows (t : AbortTransport)
    (uid : String) (h : t.resp.ok = false) :
    (abortChunkedUpload t uid).1 =
        [AbortEvent.abortRequest uid,
         AbortEvent.consoleError "Error aborting upload:"]
    ∧ (abortChunkedUpload t uid).2 =
        Except.error ("Failed to abort upload: " ++ t.resp.statusText) := by
  unfold abortChunkedUpload
  simp [h]

/-- Witness for `abortChunkedUpload_logs_and_rethrows`. -/
theorem abortChunkedUpload_logs_and_rethrows_witness :
    tAbortFail.resp.ok = false
    ∧ ((abortChunkedUpload tAbortFail "w").1 =
          [AbortEvent.abortRequest "w",
           AbortEvent.consoleError "Error aborting upload:"]
      ∧ (abortChunkedUpload tAbortFail "w").2 =
          Except.error ("Failed to abort upload: "
            ++ tAbortFail.resp.statusText)) :=
  ⟨by decide, abortChunkedUpload_logs_and_rethrows tAbortFail "w" (by decide)⟩

/-- C8: `createFileChunks` is deterministic and failure-free: the
byte-range partition it produces is a pure function of `(S, C)` —
it equals `chunkRangesFrom S C 0`, so any two files of identical size
are partitioned into exactly the same byte ranges. -/
theorem createFileChunks_deterministic (f g : JSFile) (C : Nat)
    (h : f.size = g.size) :
    (createFileChunks f C).map Blob.range = chunkRangesFrom f.size C 0
    ∧ (createFileChunks f C).map Blob.range =
        (createFileChunks g C).map Blob.range := by
  have key : ∀ u : JSFile,
      (createFileChunks u C).map Blob.range = chunkRangesFrom u.size C 0 := by
    intro u
    rw [createFileChunks, List.map_map]
    have hcomp : (Blob.range ∘ fun r : Nat × Nat => u.slice r.1 r.2) = id := by
      funext r
      cases r
      rfl
    rw [hcomp, List.map_id]
  exact ⟨key f, by rw [key f, key g, h]⟩

/-- Witness for `createFileChunks_deterministic`: two different 3-byte
files, chunk size 2. -/
theorem createFileChunks_deterministic_witness :
    file3.size = fileB3.size
    ∧ ((createFileChunks file3 2).map Blob.range =
          chunkRangesFrom file3.size 2 0
      ∧ (createFileChunks file3 2).map Blob.range =
          (createFileChunks fileB3 2).map Blob.range) :=
  ⟨by decide, createFileChunks_deterministic file3 fileB3 2 (by decide)⟩

/-- With `C ≥ 1` the loop finishes within `S - start` iterations. -/
theorem chunksLoopFuel_terminates (S C : Int) (hC : 1 ≤ C) :
    ∀ (fuel : Nat) (start : Int), (S - start).toNat ≤ fuel →
      (chunksLoopFuel fuel S C start).isSome = true := by
  intro fuel
  induction fuel with
  | zero =>
    intro start h
    have hs : ¬ start < S := by omega
    simp [chunksLoopFuel, hs]
  | succ n ih =>
    intro start h
    by_cases hs : start < S
    · have hrec := ih (min (start + C) S) (by omega)
      simp only [chunksLoopFuel, if_pos hs]
      cases hr : chunksLoopFuel n S C (min (start + C) S) with
      | some rest => simp
      | none => rw [hr] at hrec; simp at hrec
    · simp [chunksLoopFuel, hs]

/-- With `C ≤ 0` and the start inside the file, the loop never
finishes, whatever the iteration budget. -/
theorem chunksLoopFuel_diverges (S C : Int) (hC : C ≤ 0) :
    ∀ (fuel : Nat) (start : Int), start < S →
      chunksLoopFuel fuel S C start = none := by
  intro fuel
  induction fuel with
  | zero => intro start hs; simp [chunksLoopFuel, hs]
  | succ n ih =>
    intro start hs
    have hs2 : min (start + C) S < S := by omega
    simp only [chunksLoopFuel, if_pos hs, ih (min (start + C) S) hs2]

/-- C9: under the precondition `C ≥ 1` the loop of `createFileChunks`
terminates for every file size `S ≥ 0`, within at most `S` iterations
(the start offset strictly increases each round and is bounded by
`S`); without the precondition — `C ≤ 0` and `S > 0` — the loop does
not terminate under any iteration budget. -/
theorem createFileChunks_termination :
    (∀ S C : Int, 1 ≤ C → 0 ≤ S →
        (chunksLoopFuel S.toNat S C 0).isSome = true)
    ∧ (∀ S C : Int, C ≤ 0 → 0 < S → ∀ fuel : Nat,
        chunksLoopFuel fuel S C 0 = none) := by
  constructor
  · intro S C hC hS
    exact chunksLoopFuel_terminates S C hC S.toNat 0 (by omega)
  · intro S C hC hS fuel
    exact chunksLoopFuel_diverges S C hC fuel 0 hS

/-- Witness for `createFileChunks_termination` at `S = 5` with `C = 2`
(terminates) and `C = 0` (diverges, budget 7). -/
theorem createFileChunks_termination_witness :
    (chunksLoopFuel (5 : Int).toNat 5 2 0).isSome = true
    ∧ chunksLoopFuel 7 5 0 0 = none :=
  ⟨createFileChunks_termination.1 5 2 (by decide) (by decide),
   createFileChunks_termination.2 5 0 (by decide) (by decide) 7⟩
